import Mathlib

/-!
Verification of the platform/tool resolution and build-orchestration engine of
the ee-linux-tools repository (src/tasks.py), as a shallow embedding.

Conventions of the embedding:
* strings are `List Char` (`Str`), so every operation is executable and
  decidable;
* timestamps (`datetime`) are `Int` instants: Python compares timezone-aware
  datetimes as instants, and both sides of every comparison in the source are
  normalized to UTC;
* filesystem paths reachable by the engine are abstracted to tokens (the
  platform name stands for `<root>/<platform>/Dockerfile` of that root);
* the invoke `Context.run` collaborator: with `warn=True` it returns a result
  whose `ok` flag reflects the exit status; without `warn` a non-zero exit
  raises `UnexpectedExit`, which unwinds the whole task.  Failure of an
  external command is decided by an environment oracle `exitOk`;
* `docker image inspect` outcomes are modelled by `InspectResult`: the image
  was found (with its creation instant), the image was not found, or the query
  failed for another reason (daemon unreachable).  The source only observes
  `result.ok`, which is false for both of the last two.
-/

namespace ELT

abbrev Str := List Char

/-- Python `str.split(sep)`: the empty input yields one empty field. -/
def splitOnSep (sep : Char) : Str → List Str
  | [] => [[]]
  | c :: cs =>
    if c = sep then [] :: splitOnSep sep cs
    else
      match splitOnSep sep cs with
      | [] => [[c]]
      | r :: rs => (c :: r) :: rs

/-- Python `str.strip()`: drop whitespace from both ends. -/
def strip (s : Str) : Str :=
  ((s.dropWhile Char.isWhitespace).reverse.dropWhile Char.isWhitespace).reverse

/-- Returns `some r` when `s = pat ++ r`. -/
def dropStart : Str → Str → Option Str
  | [], s => some s
  | _ :: _, [] => none
  | p :: ps, c :: cs => if p = c then dropStart ps cs else none

/-- Returns `some r` when `s = r ++ suf`. -/
def dropEnd (suf s : Str) : Option Str :=
  (dropStart suf.reverse s.reverse).map List.reverse

/-- Split at the last `'.'`: `some (before, after)` when a dot occurs. -/
def splitLastDot : Str → Option (Str × Str)
  | [] => none
  | c :: cs =>
    match splitLastDot cs with
    | some (n, d) => some (c :: n, d)
    | none => if c = '.' then some ([], cs) else none

/-- Decimal value of a digit string, as Python `int()`. -/
def natOfDigits (ds : Str) : Nat :=
  ds.foldl (fun a c => a * 10 + (c.toNat - 48)) 0

/-- Python `str.lower()` (ASCII case). -/
def lowerS (s : Str) : Str := s.map Char.toLower

/-- Concatenated map under a local name, used for command traces. -/
def flatMapL (f : α → List β) : List α → List β
  | [] => []
  | a :: l => f a ++ flatMapL f l

/-- The match `re.match(rf"^{re.escape(spre)}(.+)\.(\d+)\.sh$", s)` of
`get_tools_for_platform` (src/tasks.py:181), returning the two groups.  The
greedy `(.+)` makes the digit group the segment after the last dot of the
stem: the stem is the filename with the literal script prefix and the final
`".sh"` removed, and the split is at the stem's last dot, requiring a
nonempty name and a nonempty all-digit order field. -/
def parseScript (spre : Str) (s : Str) : Option (Str × Nat) :=
  match dropStart spre s with
  | none => none
  | some r =>
    match dropEnd ['.', 's', 'h'] r with
    | none => none
    | some m =>
      match splitLastDot m with
      | none => none
      | some (n, d) =>
        if n ≠ [] ∧ d ≠ [] ∧ d.all Char.isDigit then some (n, natOfDigits d)
        else none

/-- The match `re.match(rf"^{re.escape(spre)}{re.escape(tool)}\.(\d+)\.sh$", e)`
of `get_script_path_for_tool` (src/tasks.py:211): the entry is exactly the
prefix, the literal tool name, a dot, a nonempty digit field, and `".sh"`. -/
def matchTool (spre tool e : Str) : Option Nat :=
  match dropStart (spre ++ tool) e with
  | some ('.' :: r) =>
    match dropEnd ['.', 's', 'h'] r with
    | some d => if d ≠ [] ∧ d.all Char.isDigit then some (natOfDigits d) else none
    | none => none
  | _ => none

/-- One step of the `tool_order_map` dict loop (src/tasks.py:191-192): a new
name is appended; an existing name keeps its position and keeps the smaller
order value. -/
def updateMin : List (Str × Nat) → Str × Nat → List (Str × Nat)
  | [], p => [p]
  | q :: m, p =>
    if q.1 = p.1 then (q.1, min q.2 p.2) :: m else q :: updateMin m p

/-- Stable ascending insertion by the numeric component.  Python's `sorted`
(src/tasks.py:195) and `list.sort` (src/tasks.py:225) are stable ascending
sorts; insertion sort with a strict comparison computes the same list. -/
def insOrd (x : α × Nat) : List (α × Nat) → List (α × Nat)
  | [] => [x]
  | y :: ys => if y.2 < x.2 then y :: insOrd x ys else x :: y :: ys

def sortByOrder : List (α × Nat) → List (α × Nat)
  | [] => []
  | x :: xs => insOrd x (sortByOrder xs)

/-- A platform directory: whether `base_dir/platform` exists, and its entries
in enumeration order. -/
structure PlatformDir where
  dirExists : Bool
  entries : List Str
deriving DecidableEq

/-- The dict built by the scan loop of `get_tools_for_platform`
(src/tasks.py:183-192), as an insertion-ordered association list. -/
def toolOrderMap (spre : Str) (entries : List Str) : List (Str × Nat) :=
  entries.foldl
    (fun m e => match parseScript spre e with | some p => updateMin m p | none => m) []

/-- Embeds `get_tools_for_platform` (src/tasks.py:168-196). -/
def get_tools_for_platform (d : PlatformDir) (spre : Str) : List Str :=
  if d.dirExists = false then []
  else (sortByOrder (toolOrderMap spre d.entries)).map Prod.fst

/-- The scripts of a directory that parse, with their groups, in enumeration
order. -/
def parsedScripts (d : PlatformDir) (spre : Str) : List (Str × Nat) :=
  d.entries.filterMap (parseScript spre)

/-- Embeds `get_script_path_for_tool` (src/tasks.py:199-226). -/
def get_script_path_for_tool (d : PlatformDir) (spre tool : Str) : Option Str :=
  if d.dirExists = false then none
  else
    match sortByOrder (d.entries.filterMap
        (fun e => (matchTool spre tool e).map (fun o => (e, o)))) with
    | [] => none
    | m :: _ => some m.1

/-- The data the source prints on a failed validation
(src/tasks.py:248-253) before returning `None`. -/
structure ValidationError where
  invalid : List Str
  available : List Str
deriving DecidableEq

/-- Embeds `validate_tools` (src/tasks.py:229-255).  `.error` stands for the `None`
return, carrying what the source prints; `tools_str` is `None` or a string,
and `if not tools_str` is true for both `None` and `""`. -/
def validate_tools (tools_str : Option Str) (d : PlatformDir) (spre : Str) :
    Except ValidationError (List Str) :=
  let available := get_tools_for_platform d spre
  if available = [] then .ok []
  else
    match tools_str with
    | none => .ok available
    | some ts =>
      if ts = [] then .ok available
      else
        let tools := (splitOnSep ',' ts).map strip
        let invalid := tools.filter (fun t => decide (¬ t ∈ available))
        if invalid = [] then .ok tools else .error ⟨invalid, available⟩

/-- Embeds `get_available_platforms` (src/tasks.py:161-165): the root's directory
entries that are directories, in enumeration order; `[]` for a missing root. -/
def get_available_platforms (rootExists : Bool) (rootPlatforms : List Str) : List Str :=
  if rootExists then rootPlatforms else []

/-- Embeds `validate_platforms` (src/tasks.py:258-280); `none` stands for the `None`
return. -/
def validate_platforms (platforms_str : Option Str) (rootExists : Bool)
    (rootPlatforms : List Str) : Option (List Str) :=
  match platforms_str with
  | none => some []
  | some s =>
    if s = [] then some []
    else
      let available := get_available_platforms rootExists rootPlatforms
      if available = [] then none
      else
        let ps := (splitOnSep ',' s).map strip
        if ps.filter (fun p => decide (¬ p ∈ available)) = [] then some ps else none

/-- Outcome of `docker image inspect <name> --format ...` as observed through
invoke with `warn=True` (src/tasks.py:98-102): success with the image's
creation instant, or failure — either because the image does not exist or for
any other reason such as an unreachable daemon.  The source can only read
`result.ok`, which is `False` for both failure kinds. -/
inductive InspectResult
  | found (created : Int)
  | notFound
  | daemonError
deriving DecidableEq

/-- The world the staleness oracle observes: file existence and modification
instants (paths are tokens), and per-image inspect outcomes.  `inspect`
returns `none` for the (dead) case in which `c.run` itself returns `None`
(src/tasks.py:109-110). -/
structure World where
  fileExists : Str → Bool
  fileMtime : Str → Int
  inspect : Str → Option InspectResult

/-- Embeds `get_docker_image_creation_time` (src/tasks.py:96-110): `ok` result gives
the parsed creation instant, a non-`ok` result gives `None`, and a missing
result raises `Exception("Internal Error")`. -/
def get_docker_image_creation_time (w : World) (image : Str) :
    Except String (Option Int) :=
  match w.inspect image with
  | some (.found t) => .ok (some t)
  | some .notFound => .ok none
  | some .daemonError => .ok none
  | none => .error "Internal Error"

/-- Embeds `get_file_modification_time` (src/tasks.py:113-119). -/
def get_file_modification_time (w : World) (p : Str) : Option Int :=
  if w.fileExists p then some (w.fileMtime p) else none

/-- Embeds `should_rebuild_docker_image` (src/tasks.py:122-158).  `.error` models the
raised `Exception`s. -/
def should_rebuild_docker_image (w : World) (image dockerfile : Str)
    (force : Bool) : Except String Bool :=
  if force then .ok true
  else if w.fileExists dockerfile = false then .ok false
  else
    match get_docker_image_creation_time w image with
    | .error e => .error e
    | .ok none => .ok true
    | .ok (some imageTime) =>
      match get_file_modification_time w dockerfile with
      | none => .error "Cannot read Dockerfile"
      | some dockerfileTime => .ok (decide (imageTime < dockerfileTime))

/-- External commands the orchestrator issues through `c.run`, identified by
their distinguishing arguments. -/
inductive Cmd
  | dockerBuild (image platform : Str)
  | mkCacheDirs (image : Str)
  | postImageBuild (image platform : Str)
  | toolScript (image platform script : Str)
  | collectDeps (image platform : Str)
  | rmi (image : Str)
deriving DecidableEq

/-- Exceptions that unwind an orchestration task: invoke's `UnexpectedExit`
from a non-`warn` `c.run` whose command exits non-zero, and an explicitly
raised `Exception` message. -/
inductive PyExn
  | unexpectedExit (c : Cmd)
  | exnMsg (m : String)
deriving DecidableEq

/-- One root (BUILD_DIR or TEST_DIR): its platform catalog and, per platform,
the directory listing, Dockerfile presence and mtime (the Dockerfile path is
abstracted to the platform token), and `post_image_build.sh` presence. -/
structure RootEnv where
  rootExists : Bool
  rootPlatforms : List Str
  dir : Str → PlatformDir
  dockerfileExists : Str → Bool
  dockerfileMtime : Str → Int
  postBuildExists : Str → Bool

/-- The whole environment an invocation runs against. -/
structure Env where
  buildRoot : RootEnv
  testRoot : RootEnv
  inspect : Str → Option InspectResult
  exitOk : Cmd → Bool

def rootWorld (r : RootEnv) (ins : Str → Option InspectResult) : World :=
  ⟨r.dockerfileExists, r.dockerfileMtime, ins⟩

/-- A run's result: the executed command trace, or the trace at the moment an
exception unwound the task together with that exception. -/
abbrev BuildRes (α : Type) := Except (List Cmd × PyExn) α

/-- Models `c.run(cmd)` without `warn=True`: the command is invoked; a non-zero exit
raises `UnexpectedExit`. -/
def runC (env : Env) (tr : List Cmd) (c : Cmd) : BuildRes (List Cmd) :=
  if env.exitOk c then .ok (tr ++ [c]) else .error (tr ++ [c], .unexpectedExit c)

def buildPre : Str := "build_".toList
def testPre : Str := "test_".toList

/-- Embeds `build_docker_image_for_platform` (src/tasks.py:283-327): rebuild check,
then on a rebuild the image build, the cache-directory creation and the
optional post-build script, each raising on a non-zero exit. -/
def build_docker_image_for_platform (env : Env) (r : RootEnv) (platform : Str)
    (imagePre : Str) (force : Bool) (tr : List Cmd) : BuildRes (List Cmd × Str) :=
  let image := imagePre ++ '-' :: lowerS platform
  match should_rebuild_docker_image (rootWorld r env.inspect) image platform force with
  | .error e => .error (tr, .exnMsg e)
  | .ok false => .ok (tr, image)
  | .ok true => do
    let tr2 ← runC env tr (.dockerBuild image platform)
    let tr3 ← runC env tr2 (.mkCacheDirs image)
    if r.postBuildExists platform then
      let tr4 ← runC env tr3 (.postImageBuild image platform)
      return (tr4, image)
    else
      return (tr3, image)

/-- The tool loop of `build` (src/tasks.py:438-482): per tool, a missing
script is reported and skipped; otherwise the script runs in a container and
then `collect_dependencies.sh` runs, each raising on a non-zero exit. -/
def buildToolLoop (env : Env) (image platform : Str) :
    List Str → List Cmd → BuildRes (List Cmd)
  | [], tr => .ok tr
  | t :: ts, tr =>
    match get_script_path_for_tool (env.buildRoot.dir platform) buildPre t with
    | none => buildToolLoop env image platform ts tr
    | some s => do
      let tr2 ← runC env tr (.toolScript image platform s)
      let tr3 ← runC env tr2 (.collectDeps image platform)
      buildToolLoop env image platform ts tr3

/-- The platform loop of `build` (src/tasks.py:412-482): tool validation
(`None` and `[]` both skip to the next platform), image readiness, then the
tool loop. -/
def buildPlatformLoop (env : Env) (tools : Option Str) (force : Bool) :
    List Str → List Cmd → BuildRes (List Cmd)
  | [], tr => .ok tr
  | p :: ps, tr =>
    match validate_tools tools (env.buildRoot.dir p) buildPre with
    | .error _ => buildPlatformLoop env tools force ps tr
    | .ok [] => buildPlatformLoop env tools force ps tr
    | .ok tl => do
      let (tr2, image) ←
        build_docker_image_for_platform env env.buildRoot p "builder".toList force tr
      let tr3 ← buildToolLoop env image p tl tr2
      buildPlatformLoop env tools force ps tr3

/-- The body of the `build` task (src/tasks.py:389-482), after its invoke
pre-tasks (cache-volume creation, repository sync), which are external
collaborators.  An unset or empty platform argument defaults to the whole
catalog; an invalid one returns with no commands run. -/
def build (env : Env) (tools platformArg : Option Str) (force : Bool) :
    BuildRes (List Cmd) :=
  let defaultList :=
    get_available_platforms env.buildRoot.rootExists env.buildRoot.rootPlatforms
  let platformList? : Option (List Str) :=
    match platformArg with
    | none => if defaultList = [] then none else some defaultList
    | some s =>
      if s = [] then (if defaultList = [] then none else some defaultList)
      else validate_platforms (some s) env.buildRoot.rootExists env.buildRoot.rootPlatforms
  match platformList? with
  | none => .ok []
  | some pl => buildPlatformLoop env tools force pl []

/-- The tool loop of `test` (src/tasks.py:541-567): as the build loop but with
no dependency-collection step. -/
def testToolLoop (env : Env) (image platform : Str) :
    List Str → List Cmd → BuildRes (List Cmd)
  | [], tr => .ok tr
  | t :: ts, tr =>
    match get_script_path_for_tool (env.testRoot.dir platform) testPre t with
    | none => testToolLoop env image platform ts tr
    | some s => do
      let tr2 ← runC env tr (.toolScript image platform s)
      testToolLoop env image platform ts tr2

/-- The platform loop of `test` (src/tasks.py:515-567). -/
def testPlatformLoop (env : Env) (tools : Option Str) (force : Bool) :
    List Str → List Cmd → BuildRes (List Cmd)
  | [], tr => .ok tr
  | p :: ps, tr =>
    match validate_tools tools (env.testRoot.dir p) testPre with
    | .error _ => testPlatformLoop env tools force ps tr
    | .ok [] => testPlatformLoop env tools force ps tr
    | .ok tl => do
      let (tr2, image) ←
        build_docker_image_for_platform env env.testRoot p "tester".toList force tr
      let tr3 ← testToolLoop env image p tl tr2
      testPlatformLoop env tools force ps tr3

/-- The body of the `test` task (src/tasks.py:492-567). -/
def test (env : Env) (tools platformArg : Option Str) (force : Bool) :
    BuildRes (List Cmd) :=
  let defaultList :=
    get_available_platforms env.testRoot.rootExists env.testRoot.rootPlatforms
  let platformList? : Option (List Str) :=
    match platformArg with
    | none => if defaultList = [] then none else some defaultList
    | some s =>
      if s = [] then (if defaultList = [] then none else some defaultList)
      else validate_platforms (some s) env.testRoot.rootExists env.testRoot.rootPlatforms
  match platformList? with
  | none => .ok []
  | some pl => testPlatformLoop env tools force pl []

/-- Result of `clean_docker`: the `rmi` command trace, or the raised
`AttributeError`. -/
inductive CleanResult
  | raisedAttributeError
  | done (tr : List Cmd)
deriving DecidableEq

/-- Embeds `clean_docker` (src/tasks.py:772-794).  With an unset `platform` the
source computes the union of the build and test catalogs and binds the joined
string to the local name `platforms` — but then calls `platform.split(",")`
on `platform`, which is still `None`, raising
`AttributeError: 'NoneType' object has no attribute 'split'` before any
image is removed.  With a string argument (the empty string included) the
split happens on that string and each stripped field's builder and tester
images are removed (`warn=True`, so failures do not raise). -/
def clean_docker (_env : Env) (platform : Option Str) : CleanResult :=
  match platform with
  | none => .raisedAttributeError
  | some s =>
    .done (flatMapL (fun q =>
      let p := strip q
      [Cmd.rmi ("builder-".toList ++ lowerS p), Cmd.rmi ("tester-".toList ++ lowerS p)])
      (splitOnSep ',' s))

/-- Filesystem mutations `create_dist` performs, in order. -/
inductive DEff
  | mkdirDist
  | mkdirBin
  | copyTree (platform : Str)
  | copyDetect (platform : Str)
  | writeWrapper (exe : Str)
deriving DecidableEq

/-- How a `create_dist` run ends. -/
inductive DOut
  | errNoPyproject
  | errNoVersion
  | errNoDeploy
  | errNoPlatforms
  | errNoExecutables
  | warnNoExecutables
  | success
deriving DecidableEq

/-- Inputs of `create_dist`.  `deployEntries` are the entries of `deploy/`
with their `is_dir` flags, in enumeration order.  `detectSource` abstracts the
scan of `build/*/Dockerfile` for an `ENV PLATFORM` matching the platform name
(src/tasks.py:883-905); its only effect on the run is whether a
`detect_platform.sh` copy happens for that platform (a miss is a warning). -/
structure DistEnv where
  pyprojectExists : Bool
  version : Option Str
  deployExists : Bool
  deployEntries : List (Str × Bool)
  detectSource : Str → Bool
  executablesExists : Bool
  executables : List Str

/-- Models `Path(p).name`: the last nonempty `/`-separated component. -/
def baseName (p : Str) : Str :=
  ((splitOnSep '/' p).filter (fun c => decide (c ≠ []))).getLast?.getD []

/-- Embeds `create_dist` (src/tasks.py:838-952): version manifest first, then the
distribution directory and its `bin/` subdirectory are created, then the
deploy root is checked and platform trees are copied, then the executables
manifest drives wrapper generation.  The pair is (mutations performed, how
the run ended). -/
def create_dist (env : DistEnv) : List DEff × DOut :=
  if env.pyprojectExists = false then ([], .errNoPyproject)
  else
    match env.version with
    | none => ([], .errNoVersion)
    | some _ =>
      let made := [DEff.mkdirDist, DEff.mkdirBin]
      if env.deployExists = false then (made, .errNoDeploy)
      else
        let copies := flatMapL (fun e =>
          if e.2 then
            DEff.copyTree e.1 :: (if env.detectSource e.1 then [DEff.copyDetect e.1] else [])
          else []) env.deployEntries
        let made2 := made ++ copies
        if (env.deployEntries.filter (fun e => e.2)).length = 0 then
          (made2, .errNoPlatforms)
        else if env.executablesExists = false then (made2, .errNoExecutables)
        else if env.executables = [] then (made2, .warnNoExecutables)
        else
          (made2 ++ env.executables.map (fun pth => DEff.writeWrapper (baseName pth)),
           .success)

/-! Trace shapes of a fully successful run, used to state the ordering
guarantees: what one tool contributes, what one platform contributes. -/

def imageCmds (env : Env) (r : RootEnv) (p ipre : Str) (force : Bool) : List Cmd :=
  let image := ipre ++ '-' :: lowerS p
  match should_rebuild_docker_image (rootWorld r env.inspect) image p force with
  | .ok true =>
    [Cmd.dockerBuild image p, Cmd.mkCacheDirs image]
      ++ (if r.postBuildExists p then [Cmd.postImageBuild image p] else [])
  | _ => []

def buildToolCmds (env : Env) (image platform t : Str) : List Cmd :=
  match get_script_path_for_tool (env.buildRoot.dir platform) buildPre t with
  | none => []
  | some s => [Cmd.toolScript image platform s, Cmd.collectDeps image platform]

def testToolCmds (env : Env) (image platform t : Str) : List Cmd :=
  match get_script_path_for_tool (env.testRoot.dir platform) testPre t with
  | none => []
  | some s => [Cmd.toolScript image platform s]

def buildPlatformCmds (env : Env) (tools : Option Str) (force : Bool) (p : Str) : List Cmd :=
  match validate_tools tools (env.buildRoot.dir p) buildPre with
  | .error _ => []
  | .ok [] => []
  | .ok tl =>
    imageCmds env env.buildRoot p "builder".toList force
      ++ flatMapL (buildToolCmds env ("builder".toList ++ '-' :: lowerS p) p) tl

def testPlatformCmds (env : Env) (tools : Option Str) (force : Bool) (p : Str) : List Cmd :=
  match validate_tools tools (env.testRoot.dir p) testPre with
  | .error _ => []
  | .ok [] => []
  | .ok tl =>
    imageCmds env env.testRoot p "tester".toList force
      ++ flatMapL (testToolCmds env ("tester".toList ++ '-' :: lowerS p) p) tl

/-! Concrete instances used by witnesses and counterexamples. -/

def emptyRoot : RootEnv :=
  ⟨false, [], fun _ => ⟨false, []⟩, fun _ => false, fun _ => 0, fun _ => false⟩

def wC1 : World := ⟨fun _ => true, fun _ => 5, fun _ => some (.found 3)⟩

def wC4 : World := ⟨fun _ => true, fun _ => 0, fun _ => some .daemonError⟩

def dEmptyC5 : PlatformDir := ⟨true, []⟩

def dW5 : PlatformDir := ⟨true, ["build_a.1.sh".toList, "build_c.0.sh".toList]⟩

def dirC3 : PlatformDir := ⟨true, ["build_a.0.sh".toList, "build_b.1.sh".toList]⟩

def envC3 : Env :=
  { buildRoot := ⟨true, ["P".toList], fun _ => dirC3, fun _ => true, fun _ => 0, fun _ => false⟩
    testRoot := emptyRoot
    inspect := fun _ => some (.found 10)
    exitOk := fun c =>
      decide (c ≠ .toolScript "builder-p".toList "P".toList "build_a.0.sh".toList) }

def dirC6 : PlatformDir := ⟨true, ["build_a.0.sh".toList, "build_b.1.sh".toList]⟩

def envC6 : Env :=
  { buildRoot := ⟨true, ["P".toList], fun _ => dirC6, fun _ => true, fun _ => 0, fun _ => false⟩
    testRoot := emptyRoot
    inspect := fun _ => some (.found 10)
    exitOk := fun _ => true }

def dirC7 : PlatformDir := ⟨true, ["build_a.0.sh".toList]⟩

def envC7 : Env :=
  { buildRoot := ⟨true, ["P".toList], fun _ => dirC7, fun _ => false, fun _ => 0, fun _ => false⟩
    testRoot := emptyRoot
    inspect := fun _ => some .notFound
    exitOk := fun _ => true }

def envC8 : Env :=
  { buildRoot := ⟨true, ["EL7".toList], fun _ => ⟨true, []⟩, fun _ => true, fun _ => 0, fun _ => false⟩
    testRoot := ⟨true, ["EL7".toList], fun _ => ⟨true, []⟩, fun _ => true, fun _ => 0, fun _ => false⟩
    inspect := fun _ => some .notFound
    exitOk := fun _ => true }

def envC9 : DistEnv :=
  ⟨true, some "1.0".toList, false, [], fun _ => false, true, ["nvim".toList]⟩

def envC9b : DistEnv :=
  ⟨true, some "1.0".toList, true, [("README.md".toList, false)], fun _ => false, true, []⟩

def dirC10 : PlatformDir := ⟨true, ["build_a.0.sh".toList]⟩

def envC10 : Env :=
  { buildRoot := ⟨true, ["P".toList], fun _ => dirC10, fun _ => true, fun _ => 0, fun _ => false⟩
    testRoot := emptyRoot
    inspect := fun _ => some (.found 10)
    exitOk := fun _ => true }

def dirC2w : PlatformDir :=
  ⟨true, ["build_b.2.sh".toList, "build_a.2.sh".toList, "build_a.0.sh".toList,
    "build_c.1.sh".toList]⟩

/-! Reference notions for the discovery-ordering claim: association-list
lookup, the minimum declared order of a name, first-occurrence index, and the
first-occurrence sequence of new names. -/

def alookup : List (Str × Nat) → Str → Option Nat
  | [], _ => none
  | q :: m, n => if q.1 = n then some q.2 else alookup m n

/-- Minimum combination on optional orders. -/
def ominc : Option Nat → Option Nat → Option Nat
  | none, r => r
  | some a, none => some a
  | some a, some b => some (min a b)

/-- The minimum order declared for a name among parsed scripts. -/
def minOrdOf (n : Str) : List (Str × Nat) → Option Nat
  | [] => none
  | p :: ps => if p.1 = n then ominc (some p.2) (minOrdOf n ps) else minOrdOf n ps

/-- Index of the first occurrence of a name (length when absent). -/
def fidx : List Str → Str → Nat
  | [], _ => 0
  | n :: ns, x => if n = x then 0 else fidx ns x + 1

/-- The distinct names of the parsed scripts that are not in `excl`, in
first-occurrence order. -/
def newKeys : List Str → List (Str × Nat) → List Str
  | _, [] => []
  | excl, p :: ps =>
    if p.1 ∈ excl then newKeys excl ps else p.1 :: newKeys (p.1 :: excl) ps

/-! General-purpose helper lemmas. -/

lemma flatMapL_eq_nil {f : α → List β} {l : List α} (h : ∀ a ∈ l, f a = []) :
    flatMapL f l = [] := by
  induction l with
  | nil => rfl
  | cons a l ih =>
    simp only [flatMapL, h a (List.mem_cons_self a l),
      ih fun b hb => h b (List.mem_cons_of_mem a hb), List.nil_append]

lemma exceptBind_ok (a : α) (f : α → Except ε β) :
    (Except.ok a : Except ε α) >>= f = f a := rfl

lemma exceptBind_error (e : ε) (f : α → Except ε β) :
    (Except.error e : Except ε α) >>= f = Except.error e := rfl

lemma splitOnSep_ne_nil (sep : Char) (s : Str) : splitOnSep sep s ≠ [] := by
  cases s with
  | nil => simp [splitOnSep]
  | cons c cs =>
    simp only [splitOnSep]
    split
    · simp
    · match h : splitOnSep sep cs with
      | [] => simp
      | r :: rs => simp

/-! Claim theorems. -/

/-- C1: `should_rebuild_docker_image` returns true when `force` is true
regardless of timestamps; otherwise, when the descriptor file is absent it
returns false; otherwise, when the image does not exist it returns true;
otherwise it returns true if and only if the descriptor's modification time
is strictly greater than the image's creation time, so equal timestamps
yield false. -/
theorem should_rebuild_cases (w : World) (img dkr : Str) :
    should_rebuild_docker_image w img dkr true = .ok true
    ∧ (w.fileExists dkr = false →
        should_rebuild_docker_image w img dkr false = .ok false)
    ∧ (w.fileExists dkr = true → w.inspect img = some .notFound →
        should_rebuild_docker_image w img dkr false = .ok true)
    ∧ (∀ t : Int, w.fileExists dkr = true → w.inspect img = some (.found t) →
        (should_rebuild_docker_image w img dkr false = .ok true ↔ t < w.fileMtime dkr))
    ∧ (w.fileExists dkr = true → w.inspect img = some (.found (w.fileMtime dkr)) →
        should_rebuild_docker_image w img dkr false = .ok false) := by
  refine ⟨?_, ?_, ?_, ?_, ?_⟩
  · simp [should_rebuild_docker_image]
  · intro h
    simp [should_rebuild_docker_image, h]
  · intro h hi
    simp [should_rebuild_docker_image, h, get_docker_image_creation_time, hi]
  · intro t h hi
    simp [should_rebuild_docker_image, h, get_docker_image_creation_time, hi,
      get_file_modification_time]
  · intro h hi
    simp [should_rebuild_docker_image, h, get_docker_image_creation_time, hi,
      get_file_modification_time]

theorem should_rebuild_cases_witness :
    should_rebuild_docker_image wC1 "img".toList "Dockerfile".toList false = .ok true :=
  ((should_rebuild_cases wC1 "img".toList "Dockerfile".toList).2.2.2.1 3 rfl rfl).mpr
    (by decide)

/-- C4 counterexample: with the daemon unreachable (an inspect failure that is
not "image not found"), the staleness check returns the rebuild decision true
— exactly the missing-image outcome — instead of surfacing a fatal error. -/
theorem daemon_error_cex :
    get_docker_image_creation_time wC4 "builder-el7".toList = .ok none
    ∧ should_rebuild_docker_image wC4 "builder-el7".toList "EL7".toList false = .ok true :=
  ⟨rfl, rfl⟩

/-- C4 amended: the creation-time query runs with `warn=True`, so any failed
query — image not found and daemon unreachable alike — yields `None`, which
the staleness check treats as "image missing": it returns true and surfaces
no error. -/
theorem daemon_error_treated_as_missing (w : World) (img dkr : Str)
    (hi : w.inspect img = some .daemonError) :
    get_docker_image_creation_time w img = .ok none
    ∧ (w.fileExists dkr = true →
        should_rebuild_docker_image w img dkr false = .ok true) := by
  constructor
  · simp [get_docker_image_creation_time, hi]
  · intro h
    simp [should_rebuild_docker_image, h, get_docker_image_creation_time, hi]

theorem daemon_error_treated_as_missing_witness :
    should_rebuild_docker_image wC4 "img".toList "d".toList false = .ok true :=
  (daemon_error_treated_as_missing wC4 "img".toList "d".toList rfl).2 rfl

/-- C5 counterexample: when discovery for the platform is empty, a non-empty
request whose name is certainly not among the discovered tools does not
produce a validation error — the source returns the empty list (with a
warning) before ever splitting the request. -/
theorem validate_tools_empty_discovery_cex :
    get_tools_for_platform dEmptyC5 buildPre = []
    ∧ validate_tools (some "a".toList) dEmptyC5 buildPre = .ok [] :=
  ⟨rfl, rfl⟩

/-- C5 amended: an empty or unset request returns the full discovery result
in discovery order (unconditionally); when at least one tool was discovered,
a non-empty request is comma-split and whitespace-trimmed, and if any
requested name is not among the discovered tools the whole request is
rejected with a validation error carrying exactly the invalid names and the
available names.  (When discovery is empty the source instead returns the
empty list for any request.) -/
theorem validate_tools_spec (d : PlatformDir) (spre ts : Str) :
    validate_tools none d spre = .ok (get_tools_for_platform d spre)
    ∧ validate_tools (some []) d spre = .ok (get_tools_for_platform d spre)
    ∧ (ts ≠ [] → get_tools_for_platform d spre ≠ [] →
        ((splitOnSep ',' ts).map strip).filter
            (fun t => decide (¬ t ∈ get_tools_for_platform d spre)) ≠ [] →
        validate_tools (some ts) d spre =
          .error ⟨((splitOnSep ',' ts).map strip).filter
              (fun t => decide (¬ t ∈ get_tools_for_platform d spre)),
            get_tools_for_platform d spre⟩) := by
  refine ⟨?_, ?_, ?_⟩
  · by_cases h : get_tools_for_platform d spre = [] <;>
      simp [validate_tools, h]
  · by_cases h : get_tools_for_platform d spre = [] <;>
      simp [validate_tools, h]
  · intro hts hav hinv
    simp only [validate_tools, if_neg hav]
    rw [if_neg hts, if_neg hinv]

theorem validate_tools_spec_witness :
    validate_tools (some "a,b".toList) dW5 buildPre =
      .error ⟨["b".toList], ["c".toList, "a".toList]⟩ :=
  (validate_tools_spec dW5 buildPre "a,b".toList).2.2 (by decide) (by decide) (by decide)

/-- C8: the claim is right and the code is wrong.  `clean_docker` with the
platform parameter unset computes the union of the build and test catalogs
and joins it — but binds the result to the local name `platforms`, then calls
`platform.split(",")` on the still-`None` `platform`, raising
`AttributeError` before any image is removed. -/
theorem clean_docker_unset_raises :
    clean_docker envC8 none = .raisedAttributeError :=
  rfl

/-- C9 counterexample: with the version manifest intact and the deploy source
root absent, `create_dist` aborts — but only after creating the distribution
directory and its `bin` subdirectory, so the abort does leave filesystem
mutations behind. -/
theorem create_dist_leftover_mkdir_cex :
    create_dist envC9 = ([DEff.mkdirDist, DEff.mkdirBin], DOut.errNoDeploy)
    ∧ (create_dist envC9).1 ≠ [] :=
  ⟨rfl, by decide⟩

/-- C9 amended: an abort on a missing version manifest (missing
`pyproject.toml` or missing version key) makes no filesystem mutation; the
aborts on a missing deploy root and on zero copied platforms happen after the
distribution directory and its `bin` subdirectory have been created, and
leave exactly those two mutations behind. -/
theorem create_dist_abort_effects (env : DistEnv) :
    (env.pyprojectExists = false → create_dist env = ([], .errNoPyproject))
    ∧ (env.pyprojectExists = true → env.version = none →
        create_dist env = ([], .errNoVersion))
    ∧ (∀ v, env.pyprojectExists = true → env.version = some v →
        env.deployExists = false →
        create_dist env = ([DEff.mkdirDist, DEff.mkdirBin], .errNoDeploy))
    ∧ (∀ v, env.pyprojectExists = true → env.version = some v →
        env.deployExists = true → (∀ e ∈ env.deployEntries, e.2 = false) →
        create_dist env = ([DEff.mkdirDist, DEff.mkdirBin], .errNoPlatforms)) := by
  refine ⟨?_, ?_, ?_, ?_⟩
  · intro h
    simp [create_dist, h]
  · intro h hv
    simp [create_dist, h, hv]
  · intro v h hv hd
    simp [create_dist, h, hv, hd]
  · intro v h hv hd hall
    have hcopies : flatMapL (fun e =>
        if e.2 then
          DEff.copyTree e.1 ::
            (if env.detectSource e.1 then [DEff.copyDetect e.1] else [])
        else []) env.deployEntries = [] :=
      flatMapL_eq_nil fun e he => by simp [hall e he]
    have hfilter : env.deployEntries.filter (fun e => e.2) = [] :=
      List.filter_eq_nil_iff.mpr fun e he => by simp [hall e he]
    simp [create_dist, h, hv, hd, hcopies, hfilter]

theorem create_dist_abort_effects_witness :
    create_dist envC9b = ([DEff.mkdirDist, DEff.mkdirBin], DOut.errNoPlatforms) :=
  (create_dist_abort_effects envC9b).2.2.2 "1.0".toList rfl rfl rfl (by decide)

lemma buildToolLoop_allOk (env : Env) (hok : ∀ c, env.exitOk c = true)
    (image platform : Str) (tl : List Str) :
    ∀ tr, buildToolLoop env image platform tl tr =
      .ok (tr ++ flatMapL (buildToolCmds env image platform) tl) := by
  induction tl with
  | nil => intro tr; simp [buildToolLoop, flatMapL]
  | cons t ts ih =>
    intro tr
    simp only [buildToolLoop, flatMapL, buildToolCmds]
    cases h : get_script_path_for_tool (env.buildRoot.dir platform) buildPre t with
    | none => simp [ih tr]
    | some s =>
      simp [runC, hok, exceptBind_ok, ih, List.append_assoc]

lemma testToolLoop_allOk (env : Env) (hok : ∀ c, env.exitOk c = true)
    (image platform : Str) (tl : List Str) :
    ∀ tr, testToolLoop env image platform tl tr =
      .ok (tr ++ flatMapL (testToolCmds env image platform) tl) := by
  induction tl with
  | nil => intro tr; simp [testToolLoop, flatMapL]
  | cons t ts ih =>
    intro tr
    simp only [testToolLoop, flatMapL, testToolCmds]
    cases h : get_script_path_for_tool (env.testRoot.dir platform) testPre t with
    | none => simp [ih tr]
    | some s =>
      simp [runC, hok, exceptBind_ok, ih, List.append_assoc]

/-- C10: when every requested tool name is valid for a platform,
`validate_tools` returns exactly the comma-split, whitespace-trimmed request
list — preserving the request's order and any duplicate occurrences — and the
build tool loop contributes one script invocation (and dependency
collection) per list element, so a name requested twice runs twice. -/
theorem validate_tools_passthrough :
    (∀ (d : PlatformDir) (spre ts : Str), ts ≠ [] →
      (∀ t ∈ (splitOnSep ',' ts).map strip, t ∈ get_tools_for_platform d spre) →
      validate_tools (some ts) d spre = .ok ((splitOnSep ',' ts).map strip))
    ∧ (∀ env : Env, (∀ c, env.exitOk c = true) →
        ∀ (image platform : Str) (tl : List Str) (tr : List Cmd),
        buildToolLoop env image platform tl tr =
          .ok (tr ++ flatMapL (buildToolCmds env image platform) tl)) := by
  constructor
  · intro d spre ts hts hmem
    have hne : (splitOnSep ',' ts).map strip ≠ [] := by
      have h := splitOnSep_ne_nil ',' ts
      simpa using h
    obtain ⟨t0, req', hreq⟩ : ∃ a l, (splitOnSep ',' ts).map strip = a :: l := by
      cases h : (splitOnSep ',' ts).map strip with
      | nil => exact absurd h hne
      | cons a l => exact ⟨a, l, rfl⟩
    have ht0 : t0 ∈ get_tools_for_platform d spre :=
      hmem t0 (by rw [hreq]; exact List.mem_cons_self _ _)
    have hav : get_tools_for_platform d spre ≠ [] := by
      intro h
      rw [h] at ht0
      exact (List.not_mem_nil t0) ht0
    have hfilter : ((splitOnSep ',' ts).map strip).filter
        (fun t => decide (¬ t ∈ get_tools_for_platform d spre)) = [] :=
      List.filter_eq_nil_iff.mpr fun t ht => by simp [hmem t ht]
    simp only [validate_tools, hav, if_neg hav, if_neg hts, hfilter, if_pos]
    exact rfl
  · intro env hok image platform tl tr
    exact buildToolLoop_allOk env hok image platform tl tr

theorem validate_tools_passthrough_witness :
    validate_tools (some "a,a".toList) dirC10 buildPre = .ok ["a".toList, "a".toList]
    ∧ buildToolLoop envC10 "builder-p".toList "P".toList ["a".toList, "a".toList] [] =
      .ok [Cmd.toolScript "builder-p".toList "P".toList "build_a.0.sh".toList,
        Cmd.collectDeps "builder-p".toList "P".toList,
        Cmd.toolScript "builder-p".toList "P".toList "build_a.0.sh".toList,
        Cmd.collectDeps "builder-p".toList "P".toList] :=
  ⟨validate_tools_passthrough.1 dirC10 buildPre "a,a".toList (by decide) (by decide),
   validate_tools_passthrough.2 envC10 (fun _ => rfl) "builder-p".toList "P".toList
     ["a".toList, "a".toList] []⟩

/-- C3 counterexample: platform `P` discovers tools `a` then `b`; the script
of `a` exits non-zero.  The whole invocation unwinds with `UnexpectedExit`
after that one command — tool `b` is never attempted, so a tool failure does
abort the remaining tools. -/
theorem build_tool_failure_aborts_cex :
    get_tools_for_platform dirC3 buildPre = ["a".toList, "b".toList]
    ∧ build envC3 none none false =
        .error ([Cmd.toolScript "builder-p".toList "P".toList "build_a.0.sh".toList],
          .unexpectedExit
            (Cmd.toolScript "builder-p".toList "P".toList "build_a.0.sh".toList)) :=
  ⟨rfl, rfl⟩

/-- C3 amended: a missing tool script is reported and skipped, but a tool
script invocation that exits non-zero raises `UnexpectedExit` (the `c.run`
call has no `warn=True`), which immediately aborts the whole invocation: the
failing command is the last of the trace, the remaining tools of the platform
are not attempted, and an aborting tool loop aborts the platform loop — in
both the build and the test task. -/
theorem tool_failure_unwinds :
    (∀ (env : Env) (image platform t s : Str) (ts : List Str) (tr : List Cmd),
      get_script_path_for_tool (env.buildRoot.dir platform) buildPre t = some s →
      env.exitOk (.toolScript image platform s) = false →
      buildToolLoop env image platform (t :: ts) tr =
        .error (tr ++ [Cmd.toolScript image platform s],
          .unexpectedExit (Cmd.toolScript image platform s)))
    ∧ (∀ (env : Env) (image platform t s : Str) (ts : List Str) (tr : List Cmd),
      get_script_path_for_tool (env.testRoot.dir platform) testPre t = some s →
      env.exitOk (.toolScript image platform s) = false →
      testToolLoop env image platform (t :: ts) tr =
        .error (tr ++ [Cmd.toolScript image platform s],
          .unexpectedExit (Cmd.toolScript image platform s)))
    ∧ (∀ (env : Env) (tools : Option Str) (force : Bool) (p : Str) (ps : List Str)
        (tr tr2 : List Cmd) (image : Str) (tl : List Str) (e : List Cmd × PyExn),
      validate_tools tools (env.buildRoot.dir p) buildPre = .ok tl → tl ≠ [] →
      build_docker_image_for_platform env env.buildRoot p "builder".toList force tr =
        .ok (tr2, image) →
      buildToolLoop env image p tl tr2 = .error e →
      buildPlatformLoop env tools force (p :: ps) tr = .error e)
    ∧ (∀ (env : Env) (tools : Option Str) (force : Bool) (p : Str) (ps : List Str)
        (tr tr2 : List Cmd) (image : Str) (tl : List Str) (e : List Cmd × PyExn),
      validate_tools tools (env.testRoot.dir p) testPre = .ok tl → tl ≠ [] →
      build_docker_image_for_platform env env.testRoot p "tester".toList force tr =
        .ok (tr2, image) →
      testToolLoop env image p tl tr2 = .error e →
      testPlatformLoop env tools force (p :: ps) tr = .error e) := by
  refine ⟨?_, ?_, ?_, ?_⟩
  · intro env image platform t s ts tr hres hfail
    simp [buildToolLoop, hres, runC, hfail, exceptBind_error]
  · intro env image platform t s ts tr hres hfail
    simp [testToolLoop, hres, runC, hfail, exceptBind_error]
  · intro env tools force p ps tr tr2 image tl e hval hne himg hloop
    cases tl with
    | nil => exact absurd rfl hne
    | cons a as =>
      simp only [buildPlatformLoop, hval, himg, exceptBind_ok, hloop, exceptBind_error]
  · intro env tools force p ps tr tr2 image tl e hval hne himg hloop
    cases tl with
    | nil => exact absurd rfl hne
    | cons a as =>
      simp only [testPlatformLoop, hval, himg, exceptBind_ok, hloop, exceptBind_error]

theorem tool_failure_unwinds_witness :
    buildToolLoop envC3 "builder-p".toList "P".toList ["a".toList, "b".toList] [] =
      .error ([Cmd.toolScript "builder-p".toList "P".toList "build_a.0.sh".toList],
        .unexpectedExit
          (Cmd.toolScript "builder-p".toList "P".toList "build_a.0.sh".toList)) :=
  tool_failure_unwinds.1 envC3 "builder-p".toList "P".toList "a".toList
    "build_a.0.sh".toList ["b".toList] [] rfl (by decide)

/-- C7 counterexample: platform `P` has no Dockerfile and its builder image
does not exist (the inspect query reports not-found), so an image rebuild is
required; yet the run does not abort the platform — it skips the image build
and still executes the platform's tool script. -/
theorem missing_dockerfile_cex :
    envC7.buildRoot.dockerfileExists "P".toList = false
    ∧ get_docker_image_creation_time (rootWorld envC7.buildRoot envC7.inspect)
        "builder-p".toList = .ok none
    ∧ build envC7 none none false =
        .ok [Cmd.toolScript "builder-p".toList "P".toList "build_a.0.sh".toList,
          Cmd.collectDeps "builder-p".toList "P".toList] :=
  ⟨rfl, rfl, rfl⟩

lemma build_image_noDockerfile (env : Env) (r : RootEnv) (p ipre : Str)
    (tr : List Cmd) (h : r.dockerfileExists p = false) :
    build_docker_image_for_platform env r p ipre false tr =
      .ok (tr, ipre ++ '-' :: lowerS p) := by
  simp [build_docker_image_for_platform, should_rebuild_docker_image, rootWorld, h]

/-- C7 amended: when the platform's Dockerfile is absent (and no force flag is
given), the staleness check reports an error and returns false, so the image
build step runs no command at all and hands back the image name unchanged —
and the platform loop then proceeds straight into the tool loop, executing
the platform's tool scripts against whatever image name resolves, instead of
aborting the platform. -/
theorem missing_dockerfile_skips_build :
    (∀ (env : Env) (r : RootEnv) (p ipre : Str) (tr : List Cmd),
      r.dockerfileExists p = false →
      build_docker_image_for_platform env r p ipre false tr =
        .ok (tr, ipre ++ '-' :: lowerS p))
    ∧ (∀ (env : Env) (tools : Option Str) (p image : Str) (ps : List Str)
        (tr : List Cmd) (tl : List Str),
      validate_tools tools (env.buildRoot.dir p) buildPre = .ok tl → tl ≠ [] →
      build_docker_image_for_platform env env.buildRoot p "builder".toList false tr =
        .ok (tr, image) →
      buildPlatformLoop env tools false (p :: ps) tr =
        match buildToolLoop env image p tl tr with
        | .error e => .error e
        | .ok tr3 => buildPlatformLoop env tools false ps tr3) := by
  constructor
  · intro env r p ipre tr h
    exact build_image_noDockerfile env r p ipre tr h
  · intro env tools p image ps tr tl hval hne himg
    cases tl with
    | nil => exact absurd rfl hne
    | cons a as =>
      simp only [buildPlatformLoop, hval, himg]
      cases h3 : buildToolLoop env image p (a :: as) tr with
      | error e => simp [h3, exceptBind_ok, exceptBind_error]
      | ok tr3 => simp [h3, exceptBind_ok, exceptBind_error]

lemma should_rebuild_isOk (w : World) (hins : ∀ i, w.inspect i ≠ none)
    (image dkr : Str) (force : Bool) :
    ∃ b, should_rebuild_docker_image w image dkr force = .ok b := by
  unfold should_rebuild_docker_image get_docker_image_creation_time
    get_file_modification_time
  cases force
  · cases hfe : w.fileExists dkr
    · exact ⟨false, by simp [hfe]⟩
    · cases hi : w.inspect image with
      | none => exact absurd hi (hins image)
      | some r =>
        cases r with
        | found t => exact ⟨decide (t < w.fileMtime dkr), by simp [hfe, hi]⟩
        | notFound => exact ⟨true, by simp [hfe, hi]⟩
        | daemonError => exact ⟨true, by simp [hfe, hi]⟩
  · exact ⟨true, by simp⟩

lemma build_image_allOk (env : Env) (hok : ∀ c, env.exitOk c = true)
    (hins : ∀ i, env.inspect i ≠ none) (r : RootEnv) (p ipre : Str) (force : Bool)
    (tr : List Cmd) :
    build_docker_image_for_platform env r p ipre force tr =
      .ok (tr ++ imageCmds env r p ipre force, ipre ++ '-' :: lowerS p) := by
  obtain ⟨b, hb⟩ :=
    should_rebuild_isOk (rootWorld r env.inspect) hins (ipre ++ '-' :: lowerS p) p force
  cases b
  · simp [build_docker_image_for_platform, imageCmds, hb]
  · cases hpb : r.postBuildExists p <;>
      simp [build_docker_image_for_platform, imageCmds, hb, runC, hok,
        exceptBind_ok, hpb, List.append_assoc]

lemma buildPlatformLoop_allOk (env : Env) (hok : ∀ c, env.exitOk c = true)
    (hins : ∀ i, env.inspect i ≠ none) (tools : Option Str) (force : Bool)
    (pl : List Str) :
    ∀ tr, buildPlatformLoop env tools force pl tr =
      .ok (tr ++ flatMapL (buildPlatformCmds env tools force) pl) := by
  induction pl with
  | nil => intro tr; simp [buildPlatformLoop, flatMapL]
  | cons p ps ih =>
    intro tr
    simp only [buildPlatformLoop, flatMapL, buildPlatformCmds]
    cases hv : validate_tools tools (env.buildRoot.dir p) buildPre with
    | error e => simp [ih tr]
    | ok tl =>
      cases tl with
      | nil => simp [ih tr]
      | cons a as =>
        simp [build_image_allOk env hok hins, exceptBind_ok,
          buildToolLoop_allOk env hok, ih, List.append_assoc]

lemma testPlatformLoop_allOk (env : Env) (hok : ∀ c, env.exitOk c = true)
    (hins : ∀ i, env.inspect i ≠ none) (tools : Option Str) (force : Bool)
    (pl : List Str) :
    ∀ tr, testPlatformLoop env tools force pl tr =
      .ok (tr ++ flatMapL (testPlatformCmds env tools force) pl) := by
  induction pl with
  | nil => intro tr; simp [testPlatformLoop, flatMapL]
  | cons p ps ih =>
    intro tr
    simp only [testPlatformLoop, flatMapL, testPlatformCmds]
    cases hv : validate_tools tools (env.testRoot.dir p) testPre with
    | error e => simp [ih tr]
    | ok tl =>
      cases tl with
      | nil => simp [ih tr]
      | cons a as =>
        simp [build_image_allOk env hok hins, exceptBind_ok,
          testToolLoop_allOk env hok, ih, List.append_assoc]

/-- C6 counterexample: platform `P` discovers `a` (order 0) before `b`
(order 1), yet an explicit request `"b,a"` executes `b`'s script strictly
before `a`'s — the validated request order, not the ascending discovery
order, drives execution when a subset is requested. -/
theorem build_order_cex :
    get_tools_for_platform dirC6 buildPre = ["a".toList, "b".toList]
    ∧ build envC6 (some "b,a".toList) (some "P".toList) false =
        .ok [Cmd.toolScript "builder-p".toList "P".toList "build_b.1.sh".toList,
          Cmd.collectDeps "builder-p".toList "P".toList,
          Cmd.toolScript "builder-p".toList "P".toList "build_a.0.sh".toList,
          Cmd.collectDeps "builder-p".toList "P".toList] :=
  ⟨rfl, rfl⟩

/-- C6 amended: in a fully successful invocation (every external command
exits zero and every inspect query answers), the build and test traces are
the left-to-right concatenation over the validated platform list of: the
platform's image commands, then per tool — in the order of the validated
tool list — the tool's script run immediately followed (build role only) by
its dependency collection.  The validated tool list is the ascending
discovery order when no tools were requested, but the request's own
left-to-right order when a subset is requested explicitly. -/
theorem ordered_trace (env : Env) (hok : ∀ c, env.exitOk c = true)
    (hins : ∀ i, env.inspect i ≠ none) :
    (∀ (tools : Option Str) (force : Bool) (pl : List Str) (tr : List Cmd),
      buildPlatformLoop env tools force pl tr =
        .ok (tr ++ flatMapL (buildPlatformCmds env tools force) pl))
    ∧ (∀ (tools : Option Str) (force : Bool) (pl : List Str) (tr : List Cmd),
      testPlatformLoop env tools force pl tr =
        .ok (tr ++ flatMapL (testPlatformCmds env tools force) pl)) :=
  ⟨fun tools force pl tr => buildPlatformLoop_allOk env hok hins tools force pl tr,
   fun tools force pl tr => testPlatformLoop_allOk env hok hins tools force pl tr⟩

theorem ordered_trace_witness :
    buildPlatformLoop envC6 (some "b,a".toList) false ["P".toList] [] =
      .ok [Cmd.toolScript "builder-p".toList "P".toList "build_b.1.sh".toList,
        Cmd.collectDeps "builder-p".toList "P".toList,
        Cmd.toolScript "builder-p".toList "P".toList "build_a.0.sh".toList,
        Cmd.collectDeps "builder-p".toList "P".toList] :=
  (ordered_trace envC6 (fun _ => rfl) (fun _ h => Option.noConfusion h)).1
    (some "b,a".toList) false ["P".toList] []

theorem missing_dockerfile_skips_build_witness :
    build_docker_image_for_platform envC7 envC7.buildRoot "P".toList
      "builder".toList false [] = .ok ([], "builder-p".toList) :=
  missing_dockerfile_skips_build.1 envC7 envC7.buildRoot "P".toList
    "builder".toList [] rfl

/-! Lemmas for the discovery-ordering claim. -/

lemma foldl_parse_eq (spre : Str) :
    ∀ (es : List Str) (acc : List (Str × Nat)),
      es.foldl (fun m e =>
        match parseScript spre e with | some p => updateMin m p | none => m) acc =
      (es.filterMap (parseScript spre)).foldl updateMin acc := by
  intro es
  induction es with
  | nil => intro acc; rfl
  | cons e es ih =>
    intro acc
    cases h : parseScript spre e with
    | none => simp [List.filterMap_cons, h, ih]
    | some p => simp [List.filterMap_cons, h, ih]

lemma toolOrderMap_eq (spre : Str) (d : PlatformDir) :
    toolOrderMap spre d.entries = (parsedScripts d spre).foldl updateMin [] :=
  foldl_parse_eq spre d.entries []

lemma ominc_none_right (a : Option Nat) : ominc a none = a := by
  cases a <;> rfl

lemma ominc_assoc (a b c : Option Nat) :
    ominc (ominc a b) c = ominc a (ominc b c) := by
  cases a <;> cases b <;> cases c <;> simp [ominc, Nat.min_assoc]

lemma keys_updateMin (p : Str × Nat) :
    ∀ m : List (Str × Nat),
      (updateMin m p).map Prod.fst =
        if p.1 ∈ m.map Prod.fst then m.map Prod.fst
        else m.map Prod.fst ++ [p.1] := by
  intro m
  induction m with
  | nil => simp [updateMin]
  | cons q m ih =>
    simp only [updateMin, List.map_cons]
    by_cases h : q.1 = p.1
    · rw [if_pos h]
      have hmem : p.1 ∈ q.1 :: m.map Prod.fst := by
        rw [h]; exact List.mem_cons_self _ _
      rw [if_pos hmem]
      simp
    · rw [if_neg h, List.map_cons, ih]
      by_cases h2 : p.1 ∈ m.map Prod.fst
      · rw [if_pos h2, if_pos (List.mem_cons_of_mem _ h2)]
      · have h3 : ¬ p.1 ∈ q.1 :: m.map Prod.fst := by
          intro hc
          rcases List.mem_cons.mp hc with hc | hc
          · exact h hc.symm
          · exact h2 hc
        rw [if_neg h2, if_neg h3]
        simp

lemma alookup_updateMin (p : Str × Nat) (n : Str) :
    ∀ m : List (Str × Nat),
      alookup (updateMin m p) n =
        if n = p.1 then ominc (alookup m p.1) (some p.2) else alookup m n := by
  intro m
  induction m with
  | nil =>
    by_cases h : n = p.1
    · simp only [updateMin, alookup, if_pos h, if_pos h.symm]
      rfl
    · simp only [updateMin, alookup, if_neg h, if_neg (fun hc : p.1 = n => h hc.symm)]
  | cons q m ih =>
    by_cases hq : q.1 = p.1
    · by_cases hn : n = p.1
      · simp only [updateMin, if_pos hq, alookup, if_pos (hq.trans hn.symm),
          if_pos hn, if_pos hq]
        rfl
      · have hqn : ¬ q.1 = n := fun hc => hn (hc.symm.trans hq)
        simp only [updateMin, if_pos hq, alookup, if_neg hqn, if_neg hn]
    · by_cases hn : n = p.1
      · have hqn : ¬ q.1 = n := fun hc => hq (hc.trans hn)
        simp only [updateMin, if_neg hq, alookup, if_neg hqn, ih, if_pos hn]
      · by_cases hqn : q.1 = n
        · simp only [updateMin, if_neg hq, alookup, if_pos hqn, if_neg hn]
        · simp only [updateMin, if_neg hq, alookup, if_neg hqn, ih, if_neg hn]

lemma alookup_foldl (ps : List (Str × Nat)) :
    ∀ (acc : List (Str × Nat)) (n : Str),
      alookup (ps.foldl updateMin acc) n = ominc (alookup acc n) (minOrdOf n ps) := by
  induction ps with
  | nil => intro acc n; simp [minOrdOf, ominc_none_right]
  | cons p ps ih =>
    intro acc n
    simp only [List.foldl_cons, ih, minOrdOf, alookup_updateMin]
    by_cases hn : p.1 = n
    · rw [if_pos hn, if_pos hn.symm, hn, ominc_assoc]
    · rw [if_neg hn, if_neg (fun hc => hn hc.symm)]

lemma alookup_of_mem :
    ∀ m : List (Str × Nat), (m.map Prod.fst).Nodup →
      ∀ q ∈ m, alookup m q.1 = some q.2 := by
  intro m
  induction m with
  | nil => intro _ q hq; exact absurd hq (List.not_mem_nil q)
  | cons r m ih =>
    intro hnd q hq
    rw [List.map_cons, List.nodup_cons] at hnd
    rcases List.mem_cons.mp hq with h | h
    · subst h; simp [alookup]
    · have hne : ¬ r.1 = q.1 := fun he => hnd.1 (he ▸ List.mem_map_of_mem Prod.fst h)
      simp [alookup, hne, ih hnd.2 q h]

lemma newKeys_congr :
    ∀ (ps : List (Str × Nat)) (e₁ e₂ : List Str),
      (∀ x, x ∈ e₁ ↔ x ∈ e₂) → newKeys e₁ ps = newKeys e₂ ps := by
  intro ps
  induction ps with
  | nil => intro e₁ e₂ _; rfl
  | cons p ps ih =>
    intro e₁ e₂ h
    simp only [newKeys]
    by_cases h1 : p.1 ∈ e₁
    · rw [if_pos h1, if_pos ((h p.1).mp h1), ih e₁ e₂ h]
    · rw [if_neg h1, if_neg (fun hc => h1 ((h p.1).mpr hc)),
        ih (p.1 :: e₁) (p.1 :: e₂) (fun x => by simp [h x])]

lemma keys_foldl (ps : List (Str × Nat)) :
    ∀ acc : List (Str × Nat),
      (ps.foldl updateMin acc).map Prod.fst =
        acc.map Prod.fst ++ newKeys (acc.map Prod.fst) ps := by
  induction ps with
  | nil => intro acc; simp [newKeys]
  | cons p ps ih =>
    intro acc
    simp only [List.foldl_cons, ih, keys_updateMin, newKeys]
    by_cases h : p.1 ∈ acc.map Prod.fst
    · rw [if_pos h, if_pos h]
    · rw [if_neg h, if_neg h,
        newKeys_congr ps (acc.map Prod.fst ++ [p.1]) (p.1 :: acc.map Prod.fst)
          (fun x => by simp [or_comm])]
      simp

lemma mem_newKeys :
    ∀ (ps : List (Str × Nat)) (excl : List Str) (x : Str),
      x ∈ newKeys excl ps ↔ (x ∉ excl ∧ ∃ o, (x, o) ∈ ps) := by
  intro ps
  induction ps with
  | nil => intro excl x; simp [newKeys]
  | cons p ps ih =>
    intro excl x
    simp only [newKeys]
    by_cases hp : p.1 ∈ excl
    · rw [if_pos hp, ih]
      constructor
      · rintro ⟨hx, o, ho⟩
        exact ⟨hx, o, List.mem_cons_of_mem p ho⟩
      · rintro ⟨hx, o, ho⟩
        rcases List.mem_cons.mp ho with h | h
        · have hxp : x = p.1 := congrArg Prod.fst h
          exact absurd (hxp ▸ hp) hx
        · exact ⟨hx, o, h⟩
    · rw [if_neg hp]
      by_cases hx : x = p.1
      · subst hx
        constructor
        · intro _
          exact ⟨hp, p.2, by simp⟩
        · intro _
          exact List.mem_cons_self _ _
      · rw [List.mem_cons]
        simp only [hx, false_or, ih]
        constructor
        · rintro ⟨hx2, o, ho⟩
          exact ⟨fun hc => hx2 (List.mem_cons_of_mem _ hc), o, List.mem_cons_of_mem p ho⟩
        · rintro ⟨hx2, o, ho⟩
          rcases List.mem_cons.mp ho with h | h
          · exact absurd (congrArg Prod.fst h) hx
          · refine ⟨?_, o, h⟩
            intro hc
            rcases List.mem_cons.mp hc with hc | hc
            · exact hx hc
            · exact hx2 hc

lemma nodup_newKeys :
    ∀ (ps : List (Str × Nat)) (excl : List Str), (newKeys excl ps).Nodup := by
  intro ps
  induction ps with
  | nil => intro excl; simp [newKeys]
  | cons p ps ih =>
    intro excl
    simp only [newKeys]
    by_cases hp : p.1 ∈ excl
    · rw [if_pos hp]; exact ih excl
    · rw [if_neg hp]
      refine List.nodup_cons.mpr ⟨?_, ih _⟩
      intro hmem
      exact ((mem_newKeys ps (p.1 :: excl) p.1).mp hmem).1 (List.mem_cons_self _ _)

lemma pairwise_newKeys :
    ∀ (ps : List (Str × Nat)) (excl : List Str),
      (newKeys excl ps).Pairwise
        (fun a b => fidx (ps.map Prod.fst) a < fidx (ps.map Prod.fst) b) := by
  intro ps
  induction ps with
  | nil => intro excl; simp [newKeys]
  | cons p ps ih =>
    intro excl
    simp only [newKeys, List.map_cons]
    by_cases hp : p.1 ∈ excl
    · rw [if_pos hp]
      refine (ih excl).imp_of_mem ?_
      intro a b ha hb hab
      have hane : ¬ p.1 = a := fun he => ((mem_newKeys ps excl a).mp ha).1 (he ▸ hp)
      have hbne : ¬ p.1 = b := fun he => ((mem_newKeys ps excl b).mp hb).1 (he ▸ hp)
      simp only [fidx, if_neg hane, if_neg hbne]
      omega
    · rw [if_neg hp]
      refine List.pairwise_cons.mpr ⟨?_, ?_⟩
      · intro b hb
        have hbne : ¬ p.1 = b := fun he =>
          ((mem_newKeys ps (p.1 :: excl) b).mp hb).1 (he ▸ List.mem_cons_self _ _)
        simp [fidx, hbne]
      · refine (ih (p.1 :: excl)).imp_of_mem ?_
        intro a b ha hb hab
        have hane : ¬ p.1 = a := fun he =>
          ((mem_newKeys ps (p.1 :: excl) a).mp ha).1 (he ▸ List.mem_cons_self _ _)
        have hbne : ¬ p.1 = b := fun he =>
          ((mem_newKeys ps (p.1 :: excl) b).mp hb).1 (he ▸ List.mem_cons_self _ _)
        simp only [fidx, if_neg hane, if_neg hbne]
        omega

lemma insOrd_perm {α : Type} (x : α × Nat) :
    ∀ l : List (α × Nat), List.Perm (insOrd x l) (x :: l) := by
  intro l
  induction l with
  | nil => exact List.Perm.refl _
  | cons y ys ih =>
    simp only [insOrd]
    by_cases h : y.2 < x.2
    · rw [if_pos h]
      exact (ih.cons y).trans (List.Perm.swap x y ys)
    · rw [if_neg h]

lemma sortByOrder_perm {α : Type} :
    ∀ l : List (α × Nat), List.Perm (sortByOrder l) l := by
  intro l
  induction l with
  | nil => exact List.Perm.refl _
  | cons x xs ih => exact (insOrd_perm x (sortByOrder xs)).trans (ih.cons x)

lemma insOrd_pairwise (R : Str → Str → Prop) (x : Str × Nat) :
    ∀ l : List (Str × Nat),
      l.Pairwise (fun u v => u.2 < v.2 ∨ (u.2 = v.2 ∧ R u.1 v.1)) →
      (∀ y ∈ l, R x.1 y.1) →
      (insOrd x l).Pairwise (fun u v => u.2 < v.2 ∨ (u.2 = v.2 ∧ R u.1 v.1)) := by
  intro l
  induction l with
  | nil =>
    intro _ _
    simp [insOrd]
  | cons y ys ih =>
    intro hp hx
    rw [List.pairwise_cons] at hp
    simp only [insOrd]
    by_cases h : y.2 < x.2
    · rw [if_pos h]
      refine List.pairwise_cons.mpr
        ⟨?_, ih hp.2 (fun z hz => hx z (List.mem_cons_of_mem y hz))⟩
      intro z hz
      rcases List.mem_cons.mp ((insOrd_perm x ys).mem_iff.mp hz) with rfl | hzy
      · exact Or.inl h
      · exact hp.1 z hzy
    · rw [if_neg h]
      have hxy : x.2 ≤ y.2 := Nat.le_of_not_lt h
      refine List.pairwise_cons.mpr ⟨?_, List.pairwise_cons.mpr hp⟩
      intro z hz
      rcases List.mem_cons.mp hz with rfl | hzy
      · rcases Nat.lt_or_ge x.2 z.2 with hlt | hge
        · exact Or.inl hlt
        · exact Or.inr ⟨Nat.le_antisymm hxy hge, hx z (List.mem_cons_self _ _)⟩
      · rcases hp.1 z hzy with h1 | ⟨h1, _⟩
        · exact Or.inl (Nat.lt_of_le_of_lt hxy h1)
        · rcases Nat.lt_or_ge x.2 z.2 with hlt | hge
          · exact Or.inl hlt
          · exact Or.inr ⟨Nat.le_antisymm (h1 ▸ hxy) hge,
              hx z (List.mem_cons_of_mem y hzy)⟩

lemma pairwise_of_keys {R : Str → Str → Prop} :
    ∀ m : List (Str × Nat), (m.map Prod.fst).Pairwise R →
      m.Pairwise (fun u v => R u.1 v.1) := by
  intro m
  induction m with
  | nil => intro _; exact List.Pairwise.nil
  | cons q m ih =>
    intro h
    rw [List.map_cons, List.pairwise_cons] at h
    exact List.pairwise_cons.mpr
      ⟨fun v hv => h.1 v.1 (List.mem_map_of_mem Prod.fst hv), ih h.2⟩

lemma pairwise_keys_of {Q : Str → Str → Prop} :
    ∀ m : List (Str × Nat), m.Pairwise (fun u v => Q u.1 v.1) →
      (m.map Prod.fst).Pairwise Q := by
  intro m
  induction m with
  | nil => intro _; exact List.Pairwise.nil
  | cons q m ih =>
    intro h
    rw [List.pairwise_cons] at h
    rw [List.map_cons]
    refine List.pairwise_cons.mpr ⟨?_, ih h.2⟩
    intro b hb
    rcases List.mem_map.mp hb with ⟨v, hv, rfl⟩
    exact h.1 v hv

lemma sortByOrder_pairwise (R : Str → Str → Prop) :
    ∀ l : List (Str × Nat), l.Pairwise (fun u v => R u.1 v.1) →
      (sortByOrder l).Pairwise
        (fun u v => u.2 < v.2 ∨ (u.2 = v.2 ∧ R u.1 v.1)) := by
  intro l
  induction l with
  | nil => intro _; simp [sortByOrder]
  | cons x xs ih =>
    intro hp
    rw [List.pairwise_cons] at hp
    exact insOrd_pairwise R x (sortByOrder xs) (ih hp.2)
      (fun y hy => hp.1 y ((sortByOrder_perm xs).mem_iff.mp hy))

/-- C2: for any existing platform directory, discovery returns exactly one
entry per distinct tool name among the scripts that match the pattern,
sorted ascending by each tool's minimum declared order, with ties at equal
minimum order in the directory-enumeration order of the tools' first
occurrences. -/
theorem discovery_order (d : PlatformDir) (spre : Str) (hd : d.dirExists = true) :
    (get_tools_for_platform d spre).Nodup
    ∧ (∀ n, n ∈ get_tools_for_platform d spre ↔ ∃ o, (n, o) ∈ parsedScripts d spre)
    ∧ (get_tools_for_platform d spre).Pairwise (fun a b =>
        ∃ oa ob, minOrdOf a (parsedScripts d spre) = some oa
          ∧ minOrdOf b (parsedScripts d spre) = some ob
          ∧ (oa < ob ∨ (oa = ob
              ∧ fidx ((parsedScripts d spre).map Prod.fst) a
                  < fidx ((parsedScripts d spre).map Prod.fst) b))) := by
  have hr : get_tools_for_platform d spre =
      (sortByOrder ((parsedScripts d spre).foldl updateMin [])).map Prod.fst := by
    simp [get_tools_for_platform, hd, toolOrderMap_eq]
  have hkeys : ((parsedScripts d spre).foldl updateMin []).map Prod.fst =
      newKeys [] (parsedScripts d spre) := by
    simpa using keys_foldl (parsedScripts d spre) []
  have hnodupM : (((parsedScripts d spre).foldl updateMin []).map Prod.fst).Nodup := by
    rw [hkeys]; exact nodup_newKeys (parsedScripts d spre) []
  have hperm := sortByOrder_perm ((parsedScripts d spre).foldl updateMin [])
  have hpermmap := hperm.map Prod.fst
  refine ⟨?_, ?_, ?_⟩
  · rw [hr]
    exact hpermmap.nodup_iff.mpr hnodupM
  · intro n
    rw [hr, hpermmap.mem_iff, hkeys, mem_newKeys]
    simp
  · rw [hr]
    have hval : ∀ q ∈ (parsedScripts d spre).foldl updateMin [],
        minOrdOf q.1 (parsedScripts d spre) = some q.2 := by
      intro q hq
      have h1 := alookup_of_mem _ hnodupM q hq
      rw [alookup_foldl] at h1
      simpa [alookup, ominc] using h1
    have hkp : (((parsedScripts d spre).foldl updateMin []).map Prod.fst).Pairwise
        (fun a b => fidx ((parsedScripts d spre).map Prod.fst) a
          < fidx ((parsedScripts d spre).map Prod.fst) b) := by
      rw [hkeys]; exact pairwise_newKeys (parsedScripts d spre) []
    have hsorted := sortByOrder_pairwise
      (fun a b => fidx ((parsedScripts d spre).map Prod.fst) a
        < fidx ((parsedScripts d spre).map Prod.fst) b)
      ((parsedScripts d spre).foldl updateMin []) (pairwise_of_keys _ hkp)
    refine pairwise_keys_of _ (hsorted.imp_of_mem ?_)
    intro u v hu hv huv
    refine ⟨u.2, v.2, hval u (hperm.mem_iff.mp hu), hval v (hperm.mem_iff.mp hv), ?_⟩
    rcases huv with h | ⟨h1, h2⟩
    · exact Or.inl h
    · exact Or.inr ⟨h1, h2⟩

theorem discovery_order_witness :
    dirC2w.dirExists = true
    ∧ (get_tools_for_platform dirC2w buildPre).Nodup
    ∧ get_tools_for_platform dirC2w buildPre =
        ["a".toList, "c".toList, "b".toList] :=
  ⟨rfl, (discovery_order dirC2w buildPre rfl).1, rfl⟩

end ELT
